import Mathlib

/-!
# Verification of the RemoteCLIP geospatial temporal-analysis core

Shallow embedding of `src/backend/src/analysis/remoteclip_analyzer.py`.

Modelling conventions:
* Embedding vectors are `List ℚ`.  The external embedding provider
  (`_encode_image` / `_encode_texts`, an opaque collaborator producing
  unit-norm vectors) is a parameter `encImg : String → List ℚ`
  (resp. `encTxt : String → List ℚ`).
* Floating-point `exp` (inside `torch.softmax`) and `sqrt` (inside
  `Tensor.norm`) are parameters `fexp fsqrt : ℚ → ℚ`; theorems that need
  them assume only the properties the real functions have (e.g. `exp`
  is everywhere positive).  All other arithmetic is exact rational
  arithmetic standing for float arithmetic.
* `x / x.norm()` on the zero vector is `0/0` componentwise in IEEE
  arithmetic, i.e. NaN in every component, and every value computed
  downstream from it is NaN as well.  `normalize` therefore returns
  `Option (List ℚ)`: `none` marks the NaN-poisoned outcome.
* Python exceptions become `Except PyError`.
-/

namespace RemoteCLIP

/-- Errors surfaced by the analyzer (the spec's `InvalidArgument` kind
covers both constructors). -/
inductive PyError where
  /-- Python `ValueError` with its message. -/
  | valueError (msg : String)
  /-- `RuntimeError` raised by `torch.topk` when `k` exceeds the size. -/
  | topkOutOfRange
  /-- Python `IndexError` from indexing a too-short list. -/
  | indexError
deriving DecidableEq, Repr

/-! ## Vector primitives (torch tensor operations on 1-d tensors) -/

/-- Dot product `v @ w` of two 1-d tensors. -/
def dot (v w : List ℚ) : ℚ := (List.zipWith (fun a b => a * b) v w).sum

/-- Componentwise difference `v - w`. -/
def vsub (v w : List ℚ) : List ℚ := List.zipWith (fun a b => a - b) v w

/-- Componentwise sum `v + w`. -/
def vadd (v w : List ℚ) : List ℚ := List.zipWith (fun a b => a + b) v w

/-- Scalar multiple `c * v`. -/
def smul (c : ℚ) (v : List ℚ) : List ℚ := v.map (fun a => c * a)

/-- Squared L2 norm: `v.norm() ** 2`. -/
def sqnorm (v : List ℚ) : ℚ := dot v v

/-- `v / v.norm(dim=-1, keepdim=True)`.  When the norm is zero the
vector itself is zero, so every component of the float result is
`0/0 = NaN`: that outcome is modelled as `none`.  Otherwise the result
is `v` divided componentwise by `fsqrt (sqnorm v)` (the float square
root of the squared norm). -/
def normalize (fsqrt : ℚ → ℚ) (v : List ℚ) : Option (List ℚ) :=
  if sqnorm v = 0 then none
  else some (v.map (fun a => a / fsqrt (sqnorm v)))

/-! ## Similarity scorer -/

/-- `torch.softmax(scores, dim=0)`: exponentiate each score with the
float exponential `fexp` and divide by the total. -/
def softmax (fexp : ℚ → ℚ) (scores : List ℚ) : List ℚ :=
  let es := scores.map fexp
  es.map (fun e => e / es.sum)

/-- Lines 145–146 / 225–226: `similarity = query @ candidates.T`
followed by `probs = torch.softmax(similarity * 100, dim=0)`. -/
def score_probs (fexp : ℚ → ℚ) (query : List ℚ) (candidates : List (List ℚ)) :
    List ℚ :=
  softmax fexp ((candidates.map (fun c => dot query c)).map (fun s => s * 100))

/-- The ranking order used by `torch.topk` on CPU: larger value first,
ties broken by the lower index. -/
def rankLe (a b : ℚ × Nat) : Prop := b.1 < a.1 ∨ (a.1 = b.1 ∧ a.2 ≤ b.2)

instance : DecidableRel rankLe := fun a b => by
  unfold rankLe; infer_instance

instance rankLe_total : IsTotal (ℚ × Nat) rankLe where
  total a b := by
    rcases lt_trichotomy a.1 b.1 with h | h | h
    · exact Or.inr (Or.inl h)
    · rcases Nat.le_total a.2 b.2 with h2 | h2
      · exact Or.inl (Or.inr ⟨h, h2⟩)
      · exact Or.inr (Or.inr ⟨h.symm, h2⟩)
    · exact Or.inl (Or.inl h)

instance rankLe_trans : IsTrans (ℚ × Nat) rankLe where
  trans a b c hab hbc := by
    rcases hab with h1 | ⟨h1, h1i⟩ <;> rcases hbc with h2 | ⟨h2, h2i⟩
    · exact Or.inl (h2.trans h1)
    · exact Or.inl (h2 ▸ h1)
    · exact Or.inl (h1 ▸ h2)
    · exact Or.inr ⟨h1.trans h2, h1i.trans h2i⟩

/-- The strict version of `rankLe`: what `torch.topk`'s output order
looks like once indices are known to be distinct. -/
def rankLt (a b : ℚ × Nat) : Prop := b.1 < a.1 ∨ (a.1 = b.1 ∧ a.2 < b.2)

/-- Pair every entry of a list with its index, starting at `s`. -/
def withIdx : List ℚ → Nat → List (ℚ × Nat)
  | [], _ => []
  | a :: l, i => (a, i) :: withIdx l (i + 1)

/-- All `(value, index)` pairs of `xs`, sorted by descending value with
ties broken by the lower index — the full ordering underlying
`torch.topk(xs, k)` (values descending, deterministic tie-break). -/
def rankAll (xs : List ℚ) : List (ℚ × Nat) :=
  List.insertionSort rankLe (withIdx xs 0)

/-- `values, indices = xs.topk(k)`, as the list of `(value, index)`
pairs.  `torch.topk` raises a `RuntimeError` ("selected index k out of
range") when `k` exceeds the number of entries. -/
def topk (xs : List ℚ) (k : Nat) : Except PyError (List (ℚ × Nat)) :=
  if k ≤ xs.length then .ok ((rankAll xs).take k)
  else .error .topkOutOfRange

/-! ## Catalogs (class constants of `RemoteCLIPAnalyzer`) -/

/-- `RemoteCLIPAnalyzer.LAND_USE_CATEGORIES` (20 entries). -/
def LAND_USE_CATEGORIES : List String :=
  [ "urban area with buildings and roads"
  , "residential neighborhood with houses"
  , "industrial zone with factories"
  , "commercial district with shops"
  , "agricultural land with crops"
  , "farmland with fields"
  , "dense forest"
  , "sparse vegetation"
  , "grassland and meadows"
  , "water body like lake or river"
  , "ocean or sea"
  , "wetland or marsh"
  , "desert or barren land"
  , "snow or ice covered area"
  , "construction site"
  , "airport with runways"
  , "port or harbor"
  , "solar farm"
  , "parking lot"
  , "sports facility or stadium" ]

/-- `RemoteCLIPAnalyzer.CHANGE_DESCRIPTIONS` (15 entries). -/
def CHANGE_DESCRIPTIONS : List String :=
  [ "new construction and urban development"
  , "deforestation and vegetation loss"
  , "reforestation and vegetation growth"
  , "urban expansion"
  , "agricultural expansion"
  , "water level changes"
  , "infrastructure development"
  , "industrial development"
  , "natural disaster damage"
  , "land degradation"
  , "coastal erosion"
  , "flooding"
  , "drought effects"
  , "seasonal vegetation changes"
  , "no significant changes" ]

/-! ## Result records (the dict-shaped results of the Python methods) -/

/-- One `{category, confidence}` entry of `classify_land_use`. -/
structure Prediction where
  category : String
  confidence : ℚ
deriving DecidableEq, Repr, Inhabited

/-- One `{description, confidence}` entry of `detect_changes`. -/
structure ChangeEntry where
  description : String
  confidence : ℚ
deriving DecidableEq, Repr, Inhabited

/-- Result dict of `detect_changes`.  `detected_changes = none` records
the NaN-poisoned ranking produced when a zero-norm vector was
normalized on the way to the confidences (the float code still returns
a dict, but every confidence in it is NaN). -/
structure ChangeResult where
  overall_similarity : ℚ
  change_magnitude : ℚ
  detected_changes : Option (List ChangeEntry)
deriving DecidableEq, Repr

/-- Result dict of `compare_images`. -/
structure CompareResult where
  similarity : ℚ
  change_detected : Bool
  image1_classification : Prediction
  image2_classification : Prediction
deriving DecidableEq, Repr

/-! ## Analyzer operations -/

/-- `classify_land_use(image_path, top_k)` (lines 127–158): encode the
image, encode the land-use catalog, score with `score_probs`, take the
top `top_k` and pair each index with its catalog phrase.
`fexp` is the float exponential, `encImg`/`encTxt` the embedding
provider. -/
def classify_land_use (fexp : ℚ → ℚ) (encImg encTxt : String → List ℚ)
    (image_path : String) (top_k : Nat) : Except PyError (List Prediction) :=
  let image_features := encImg image_path
  let text_features := LAND_USE_CATEGORIES.map encTxt
  let probs := score_probs fexp image_features text_features
  match topk probs top_k with
  | .error e => .error e
  | .ok tops =>
      .ok (tops.map (fun p => ⟨LAND_USE_CATEGORIES.getD p.2 "", p.1⟩))

/-- `compare_images(image1_path, image2_path)` (lines 160–192): cosine
similarity of the two image embeddings, top-1 classification of each
image, and `change_detected = similarity < 0.85 or class1['category']
!= class2['category']`. -/
def compare_images (fexp : ℚ → ℚ) (encImg encTxt : String → List ℚ)
    (image1_path image2_path : String) : Except PyError CompareResult :=
  let features1 := encImg image1_path
  let features2 := encImg image2_path
  let similarity := dot features1 features2
  match classify_land_use fexp encImg encTxt image1_path 1 with
  | .error e => .error e
  | .ok cs1 =>
    match classify_land_use fexp encImg encTxt image2_path 1 with
    | .error e => .error e
    | .ok cs2 =>
      match cs1.head?, cs2.head? with
      | some class1, some class2 =>
          .ok ⟨similarity,
               decide (similarity < 17/20) ||
                 decide (class1.category ≠ class2.category),
               class1, class2⟩
      | _, _ => .error .indexError

/-- `detect_changes(image1_path, image2_path, top_k)` (lines 194–244):
normalize the difference of the embeddings, blend it into the later
embedding with weight `0.5`, renormalize, score the result against the
templated change catalog and keep the top `top_k`;
`overall_similarity` is the raw dot product of the two image
embeddings and `change_magnitude = 1 - overall_similarity`.
There is no special case for identical embeddings: the zero difference
vector is divided by its zero norm, and the resulting NaNs poison every
confidence in the ranking (`detected_changes = none`); `torch.topk`
still checks `top_k` against the catalog size. -/
def detect_changes (fexp fsqrt : ℚ → ℚ) (encImg encTxt : String → List ℚ)
    (image1_path image2_path : String) (top_k : Nat) :
    Except PyError ChangeResult :=
  let features1 := encImg image1_path
  let features2 := encImg image2_path
  let change_texts := CHANGE_DESCRIPTIONS.map
    (fun desc => "This area shows " ++ desc)
  let text_features := change_texts.map encTxt
  let overall_similarity := dot features1 features2
  match normalize fsqrt (vsub features2 features1) with
  | none =>
      -- NaN-poisoned path: every downstream value is NaN, but the
      -- topk size check and the overall-similarity fields are intact.
      if top_k ≤ text_features.length then
        .ok ⟨overall_similarity, 1 - overall_similarity, none⟩
      else .error .topkOutOfRange
  | some diff_features =>
    match normalize fsqrt (vadd features2 (smul (1/2) diff_features)) with
    | none =>
        if top_k ≤ text_features.length then
          .ok ⟨overall_similarity, 1 - overall_similarity, none⟩
        else .error .topkOutOfRange
    | some combined_features =>
      let probs := score_probs fexp combined_features text_features
      match topk probs top_k with
      | .error e => .error e
      | .ok tops =>
          .ok ⟨overall_similarity, 1 - overall_similarity,
               some (tops.map
                 (fun p => ⟨CHANGE_DESCRIPTIONS.getD p.2 "", p.1⟩))⟩

/-! ## Temporal sequence analyzer -/

/-- One entry of `individual_classifications`. -/
structure IndivClassification where
  index : Nat
  date : Option String
  classification : List Prediction
deriving DecidableEq, Repr

/-- One entry of `pairwise_changes`. -/
structure PairwiseChange where
  from_index : Nat
  to_index : Nat
  from_date : Option String
  to_date : Option String
  analysis : ChangeResult
deriving DecidableEq, Repr

/-- The `land_use_transition` record of the overall trend. -/
structure LandUseTransition where
  fromCategory : String
  toCategory : String
  same_category : Bool
deriving DecidableEq, Repr

/-- The `overall_trend` record. -/
structure OverallTrend where
  total_change_magnitude : ℚ
  primary_changes : Option (List ChangeEntry)
  land_use_transition : LandUseTransition
deriving DecidableEq, Repr

/-- Result dict of `analyze_temporal_sequence`. -/
structure TemporalResult where
  num_images : Nat
  dates : Option (List String)
  individual_classifications : List IndivClassification
  pairwise_changes : List PairwiseChange
  overall_trend : Option OverallTrend
deriving DecidableEq, Repr

/-- Effectful `map` over a list, short-circuiting at the first error —
the Python `for` loops that append one result per iteration. -/
def mapME (f : α → Except PyError β) : List α → Except PyError (List β)
  | [] => .ok []
  | a :: l =>
    match f a with
    | .error e => .error e
    | .ok b =>
      match mapME f l with
      | .error e => .error e
      | .ok bs => .ok (b :: bs)

/-- `dates[i] if dates else None`: `None` stays `None`, a present but
too-short list raises `IndexError` as in Python. -/
def dateAt (dates : Option (List String)) (i : Nat) :
    Except PyError (Option String) :=
  match dates with
  | none => .ok none
  | some ds =>
    match ds.get? i with
    | some d => .ok (some d)
    | none => .error .indexError

/-- Python list indexing `l[i]` (raises `IndexError` out of range). -/
def listAt (l : List α) (i : Nat) : Except PyError α :=
  match l.get? i with
  | some x => .ok x
  | none => .error .indexError

/-- The body of the first loop of `analyze_temporal_sequence` (lines
277–286): classify image `p.2` (index `p.1`) with `top_k = 2` and
attach index and optional date. -/
def classifyStep (fexp : ℚ → ℚ) (encImg encTxt : String → List ℚ)
    (dates : Option (List String)) (p : Nat × String) :
    Except PyError IndivClassification :=
  match classify_land_use fexp encImg encTxt p.2 2 with
  | .error e => .error e
  | .ok c =>
    match dateAt dates p.1 with
    | .error e => .error e
    | .ok d => .ok ⟨p.1, d, c⟩

/-- The body of the second loop of `analyze_temporal_sequence` (lines
289–297): `detect_changes` on the consecutive pair `(i, i + 1)` with
the default `top_k = 3`, plus indices and optional dates. -/
def pairStep (fexp fsqrt : ℚ → ℚ) (encImg encTxt : String → List ℚ)
    (image_paths : List String) (dates : Option (List String)) (i : Nat) :
    Except PyError PairwiseChange :=
  match detect_changes fexp fsqrt encImg encTxt
      (image_paths.getD i "") (image_paths.getD (i + 1) "") 3 with
  | .error e => .error e
  | .ok a =>
    match dateAt dates i with
    | .error e => .error e
    | .ok fd =>
      match dateAt dates (i + 1) with
      | .error e => .error e
      | .ok td => .ok ⟨i, i + 1, fd, td, a⟩

/-- `analyze_temporal_sequence(image_paths, dates)` (lines 246–315):
raise `ValueError` on fewer than 2 images; classify every image
(top-2), run `detect_changes` (top-3) on every consecutive pair, and
build the overall trend from `detect_changes` on the first and last
image together with the top-1 classifications of the first and last
image. -/
def analyze_temporal_sequence (fexp fsqrt : ℚ → ℚ)
    (encImg encTxt : String → List ℚ)
    (image_paths : List String) (dates : Option (List String)) :
    Except PyError TemporalResult :=
  if image_paths.length < 2 then
    .error (.valueError "Need at least 2 images for temporal analysis")
  else
    match mapME (classifyStep fexp encImg encTxt dates) image_paths.enum with
    | .error e => .error e
    | .ok indiv =>
      match mapME (pairStep fexp fsqrt encImg encTxt image_paths dates)
        (List.range (image_paths.length - 1)) with
      | .error e => .error e
      | .ok pairs =>
        match detect_changes fexp fsqrt encImg encTxt
            (image_paths.getD 0 "")
            (image_paths.getD (image_paths.length - 1) "") 3 with
        | .error e => .error e
        | .ok overall_change =>
          match listAt indiv 0, listAt indiv (indiv.length - 1) with
          | .ok ic0, .ok icN =>
            match listAt ic0.classification 0,
                  listAt icN.classification 0 with
            | .ok first_class, .ok last_class =>
                .ok ⟨image_paths.length, dates, indiv, pairs,
                     some ⟨overall_change.change_magnitude,
                           overall_change.detected_changes,
                           ⟨first_class.category, last_class.category,
                            decide (first_class.category =
                              last_class.category)⟩⟩⟩
            | .error e, _ => .error e
            | _, .error e => .error e
          | .error e, _ => .error e
          | _, .error e => .error e

/-! ## Module-level singleton (`get_analyzer`, lines 396–404) -/

/-- The observable state of a `RemoteCLIPAnalyzer` object.  `objId`
models Python object identity (two calls to the constructor yield
distinct ids); `loaded` is the `_initialized` flag, `False` right after
construction. -/
structure AnalyzerInst where
  objId : Nat
  model_name : String
  loaded : Bool
deriving DecidableEq, Repr

/-- Process-wide state around `_analyzer_instance`: the stored optional
instance plus a supply of fresh object ids. -/
structure SingletonState where
  inst : Option AnalyzerInst
  nextId : Nat
deriving DecidableEq, Repr

/-- `get_analyzer(model_name)`: reuse the stored instance when its
`model_name` matches, otherwise (or when nothing is stored) construct a
fresh, not-yet-loaded instance and store it.  Returns the instance
together with the updated module state. -/
def get_analyzer (model_name : String) (st : SingletonState) :
    AnalyzerInst × SingletonState :=
  match st.inst with
  | some a =>
    if a.model_name = model_name then (a, st)
    else
      let fresh : AnalyzerInst := ⟨st.nextId, model_name, false⟩
      (fresh, ⟨some fresh, st.nextId + 1⟩)
  | none =>
      let fresh : AnalyzerInst := ⟨st.nextId, model_name, false⟩
      (fresh, ⟨some fresh, st.nextId + 1⟩)

/-! ## Supporting lemmas -/

theorem softmax_length (fexp : ℚ → ℚ) (s : List ℚ) :
    (softmax fexp s).length = s.length := by
  simp [softmax]

theorem score_probs_length (fexp : ℚ → ℚ) (q : List ℚ)
    (cands : List (List ℚ)) : (score_probs fexp q cands).length = cands.length := by
  simp [score_probs, softmax]

theorem sum_map_div (l : List ℚ) (d : ℚ) :
    (l.map (fun e => e / d)).sum = l.sum / d := by
  induction l with
  | nil => simp
  | cons a t ih => simp [ih, add_div]

theorem softmax_sum (fexp : ℚ → ℚ) (hpos : ∀ x : ℚ, 0 < fexp x)
    (s : List ℚ) (hne : s ≠ []) : (softmax fexp s).sum = 1 := by
  have hne' : s.map fexp ≠ [] := by simpa using hne
  have hsum : 0 < (s.map fexp).sum :=
    List.sum_pos _ (by intro a ha; rcases List.mem_map.mp ha with ⟨x, -, rfl⟩; exact hpos x) hne'
  unfold softmax
  rw [sum_map_div]
  exact div_self hsum.ne'

theorem softmax_mem_unitInterval (fexp : ℚ → ℚ) (hpos : ∀ x : ℚ, 0 < fexp x)
    (s : List ℚ) (p : ℚ) (hp : p ∈ softmax fexp s) : 0 ≤ p ∧ p ≤ 1 := by
  unfold softmax at hp
  rcases List.mem_map.mp hp with ⟨e, he, rfl⟩
  have hepos : 0 < e := by
    rcases List.mem_map.mp he with ⟨x, -, rfl⟩; exact hpos x
  have hne' : s.map fexp ≠ [] := by
    intro hcon; rw [hcon] at he; exact (List.not_mem_nil e) he
  have hallpos : ∀ a ∈ s.map fexp, 0 < a := by
    intro a ha; rcases List.mem_map.mp ha with ⟨x, -, rfl⟩; exact hpos x
  have hsum : 0 < (s.map fexp).sum := List.sum_pos _ hallpos hne'
  have hle : e ≤ (s.map fexp).sum :=
    List.single_le_sum (fun a ha => (hallpos a ha).le) e he
  exact ⟨div_nonneg hepos.le hsum.le, (div_le_one hsum).mpr hle⟩

theorem withIdx_length (l : List ℚ) : ∀ s, (withIdx l s).length = l.length := by
  induction l with
  | nil => intro s; rfl
  | cons a t ih => intro s; simp [withIdx, ih]

theorem withIdx_get? (l : List ℚ) :
    ∀ s j, (withIdx l s).get? j = (l.get? j).map (fun a => (a, s + j)) := by
  induction l with
  | nil => intro s j; simp [withIdx]
  | cons a t ih =>
    intro s j
    cases j with
    | zero => simp [withIdx]
    | succ j => simpa [withIdx, Nat.add_assoc, Nat.add_comm 1 j] using ih (s + 1) j

theorem withIdx_map_snd (l : List ℚ) :
    ∀ s, (withIdx l s).map Prod.snd = List.range' s l.length := by
  induction l with
  | nil => intro s; rfl
  | cons a t ih =>
    intro s
    simp [withIdx, ih, List.range'_succ]

theorem mem_withIdx (l : List ℚ) (p : ℚ × Nat) :
    p ∈ withIdx l 0 ↔ l.get? p.2 = some p.1 := by
  obtain ⟨pv, pi⟩ := p
  rw [List.mem_iff_get?]
  constructor
  · rintro ⟨n, hn⟩
    rw [withIdx_get? l 0 n] at hn
    rcases Option.map_eq_some'.mp hn with ⟨a, ha, heq⟩
    obtain ⟨rfl, rfl⟩ : a = pv ∧ n = pi := by
      constructor <;> [skip; skip] <;> cases heq <;> simp
    simpa using ha
  · intro h
    refine ⟨pi, ?_⟩
    rw [withIdx_get? l 0 pi, h]
    simp

theorem rankAll_perm (xs : List ℚ) : (rankAll xs).Perm (withIdx xs 0) :=
  List.perm_insertionSort rankLe (withIdx xs 0)

theorem rankAll_length (xs : List ℚ) : (rankAll xs).length = xs.length :=
  ((rankAll_perm xs).length_eq).trans (withIdx_length xs 0)

theorem rankAll_sorted (xs : List ℚ) : (rankAll xs).Pairwise rankLe :=
  List.sorted_insertionSort rankLe (withIdx xs 0)

theorem mem_rankAll (xs : List ℚ) (p : ℚ × Nat) :
    p ∈ rankAll xs ↔ xs.get? p.2 = some p.1 :=
  ((rankAll_perm xs).mem_iff).trans (mem_withIdx xs p)

theorem rankAll_snd_nodup (xs : List ℚ) : ((rankAll xs).map Prod.snd).Nodup := by
  have hperm := (rankAll_perm xs).map Prod.snd
  have : ((withIdx xs 0).map Prod.snd).Nodup := by
    rw [withIdx_map_snd]
    exact List.nodup_range' 0 xs.length
  exact hperm.symm.nodup this

theorem topk_ok (xs : List ℚ) (k : Nat) (hk : k ≤ xs.length) :
    topk xs k = .ok ((rankAll xs).take k) := by
  simp [topk, hk]

theorem topk_err (xs : List ℚ) (k : Nat) (hk : xs.length < k) :
    topk xs k = .error .topkOutOfRange := by
  simp [topk, Nat.not_le.mpr hk]

theorem topk_spec (xs : List ℚ) (k : Nat) (l : List (ℚ × Nat))
    (h : topk xs k = .ok l) :
    l.length = k ∧
    (∀ p ∈ l, xs.get? p.2 = some p.1) ∧
    l.Pairwise rankLt ∧
    (∀ p ∈ l, ∀ j c, xs.get? j = some c → j ∉ l.map Prod.snd →
      (c < p.1 ∨ (c = p.1 ∧ p.2 < j))) := by
  unfold topk at h
  split at h
  case isFalse => exact absurd h (by simp)
  case isTrue hk =>
  have hl : l = (rankAll xs).take k := by
    injection h with h'; exact h'.symm
  subst hl
  have hsub : List.Sublist ((rankAll xs).take k) (rankAll xs) :=
    List.take_sublist k (rankAll xs)
  refine ⟨?_, ?_, ?_, ?_⟩
  · rw [List.length_take, rankAll_length]
    exact Nat.min_eq_left hk
  · intro p hp
    exact (mem_rankAll xs p).mp (hsub.mem hp)
  · -- strictly descending with index tie-break: combine sortedness
    -- of the full ranking with distinctness of the selected indices
    have hsor : ((rankAll xs).take k).Pairwise rankLe :=
      (rankAll_sorted xs).sublist hsub
    have hnd : (((rankAll xs).take k).map Prod.snd).Nodup := by
      rw [List.map_take]
      exact (rankAll_snd_nodup xs).sublist (List.take_sublist k _)
    have hne : ((rankAll xs).take k).Pairwise (fun a b => a.2 ≠ b.2) :=
      List.pairwise_map.mp hnd
    refine (hsor.and hne).imp ?_
    rintro a b ⟨hle, hne2⟩
    rcases hle with h1 | ⟨h1, h2⟩
    · exact Or.inl h1
    · exact Or.inr ⟨h1, Nat.lt_of_le_of_ne h2 hne2⟩
  · intro p hp j c hj hnotin
    have hmem : (c, j) ∈ rankAll xs := (mem_rankAll xs (c, j)).mpr hj
    have hsplit := List.take_append_drop k (rankAll xs)
    have hdrop : (c, j) ∈ (rankAll xs).drop k := by
      rcases List.mem_append.mp (by rw [hsplit]; exact hmem) with hmt | hmd
      · exact absurd (List.mem_map.mpr ⟨(c, j), hmt, rfl⟩) hnotin
      · exact hmd
    have hpw : ∀ a ∈ (rankAll xs).take k, ∀ b ∈ (rankAll xs).drop k, rankLe a b := by
      have := rankAll_sorted xs
      rw [← hsplit] at this
      exact (List.pairwise_append.mp this).2.2
    have hrel : rankLe p (c, j) := hpw p hp (c, j) hdrop
    rcases hrel with h1 | ⟨h1, h2⟩
    · exact Or.inl h1
    · refine Or.inr ⟨h1.symm, Nat.lt_of_le_of_ne h2 ?_⟩
      intro heq
      exact hnotin (List.mem_map.mpr ⟨p, hp, heq⟩)

theorem mapME_ok {α β : Type} (f : α → Except PyError β) (l : List α)
    (h : ∀ a ∈ l, ∃ b, f a = .ok b) :
    ∃ bs, mapME f l = .ok bs ∧ bs.length = l.length ∧
      ∀ i a, l.get? i = some a → ∃ b, f a = .ok b ∧ bs.get? i = some b := by
  induction l with
  | nil => exact ⟨[], rfl, rfl, by intro i a ha; simp at ha⟩
  | cons a t ih =>
    obtain ⟨b, hb⟩ := h a (List.mem_cons_self a t)
    obtain ⟨bs, hbs, hlen, hpt⟩ := ih (fun x hx => h x (List.mem_cons_of_mem a hx))
    refine ⟨b :: bs, by simp [mapME, hb, hbs], by simp [hlen], ?_⟩
    intro i x hx
    cases i with
    | zero =>
      simp only [List.get?_cons_zero, Option.some_inj] at hx
      subst hx
      exact ⟨b, hb, by simp⟩
    | succ i =>
      simp only [List.get?_cons_succ] at hx
      obtain ⟨b', hb', hbs'⟩ := hpt i x hx
      exact ⟨b', hb', by simpa using hbs'⟩

theorem land_use_catalog_length : LAND_USE_CATEGORIES.length = 20 := by
  simp [LAND_USE_CATEGORIES]

theorem change_catalog_length : CHANGE_DESCRIPTIONS.length = 15 := by
  simp [CHANGE_DESCRIPTIONS]

theorem classify_probs_length (fexp : ℚ → ℚ) (encImg encTxt : String → List ℚ)
    (p : String) :
    (score_probs fexp (encImg p) (LAND_USE_CATEGORIES.map encTxt)).length =
      LAND_USE_CATEGORIES.length := by
  rw [score_probs_length, List.length_map]

theorem classify_land_use_ok (fexp : ℚ → ℚ) (encImg encTxt : String → List ℚ)
    (p : String) (k : Nat) (hk : k ≤ LAND_USE_CATEGORIES.length) :
    ∃ l, classify_land_use fexp encImg encTxt p k = .ok l ∧ l.length = k := by
  simp only [classify_land_use]
  rw [topk_ok _ _ (by rw [classify_probs_length]; exact hk)]
  refine ⟨_, rfl, ?_⟩
  rw [List.length_map, List.length_take, rankAll_length, classify_probs_length]
  exact Nat.min_eq_left hk

theorem detect_probs_length (fexp : ℚ → ℚ) (encTxt : String → List ℚ)
    (c : List ℚ) :
    (score_probs fexp c
      ((CHANGE_DESCRIPTIONS.map (fun desc => "This area shows " ++ desc)).map
        encTxt)).length = CHANGE_DESCRIPTIONS.length := by
  rw [score_probs_length, List.length_map, List.length_map]

theorem detect_changes_ok (fexp fsqrt : ℚ → ℚ) (encImg encTxt : String → List ℚ)
    (p1 p2 : String) (k : Nat) (hk : k ≤ CHANGE_DESCRIPTIONS.length) :
    ∃ r, detect_changes fexp fsqrt encImg encTxt p1 p2 k = .ok r ∧
      r.overall_similarity = dot (encImg p1) (encImg p2) ∧
      r.change_magnitude = 1 - dot (encImg p1) (encImg p2) := by
  simp only [detect_changes]
  have hlen : ((CHANGE_DESCRIPTIONS.map
      (fun desc => "This area shows " ++ desc)).map encTxt).length =
      CHANGE_DESCRIPTIONS.length := by
    rw [List.length_map, List.length_map]
  cases hn1 : normalize fsqrt (vsub (encImg p2) (encImg p1)) with
  | none =>
    simp only []
    rw [if_pos (by rw [hlen]; exact hk)]
    exact ⟨_, rfl, rfl, rfl⟩
  | some d =>
    simp only []
    cases hn2 : normalize fsqrt (vadd (encImg p2) (smul (1/2) d)) with
    | none =>
      simp only []
      rw [if_pos (by rw [hlen]; exact hk)]
      exact ⟨_, rfl, rfl, rfl⟩
    | some c =>
      simp only []
      rw [topk_ok _ _ (by rw [detect_probs_length]; exact hk)]
      exact ⟨_, rfl, rfl, rfl⟩

theorem dateAt_ok (dates : Option (List String)) (n i : Nat)
    (hd : dates = none ∨ ∃ ds, dates = some ds ∧ ds.length = n)
    (hi : i < n) : ∃ d, dateAt dates i = .ok d := by
  rcases hd with rfl | ⟨ds, rfl, hdl⟩
  · exact ⟨none, rfl⟩
  · unfold dateAt
    simp only []
    cases hg : ds.get? i with
    | none => exact absurd (hdl ▸ List.get?_eq_none.mp hg) (Nat.not_le.mpr hi)
    | some d => exact ⟨some d, rfl⟩

theorem listAt_ok {α : Type} (l : List α) (i : Nat) (hi : i < l.length) :
    ∃ x, listAt l i = .ok x ∧ l.get? i = some x := by
  unfold listAt
  cases hg : l.get? i with
  | none => exact absurd (List.get?_eq_none.mp hg) (Nat.not_le.mpr hi)
  | some x => exact ⟨x, rfl, rfl⟩

theorem sqnorm_vsub_self (v : List ℚ) : sqnorm (vsub v v) = 0 := by
  induction v with
  | nil => rfl
  | cons a t ih =>
    simp only [vsub, sqnorm, dot, List.zipWith] at ih ⊢
    simp [ih]

theorem topk_ok_le (xs : List ℚ) (k : Nat) (l : List (ℚ × Nat))
    (h : topk xs k = .ok l) : k ≤ xs.length := by
  unfold topk at h
  split at h
  · assumption
  · exact Except.noConfusion h

/-! ## Claim theorems -/

/-- C1: the claim says `detect_changes` engages an explicit zero-vector
fallback on embedding-identical inputs, reporting a zero/neutral change
ranking with no NaN.  The code has no such branch: with the same image
twice the difference vector is zero, its normalization divides zero by
zero, and the resulting NaNs poison every confidence of the ranked
change descriptions (`detected_changes = none` in this model).  Only
`overall_similarity` (the raw dot product, `1` for a unit-norm
embedding) and `change_magnitude = 1 -` it are NaN-free. -/
theorem detect_changes_identical_nan_poisoned (fexp fsqrt : ℚ → ℚ)
    (encImg encTxt : String → List ℚ) (p : String) :
    detect_changes fexp fsqrt encImg encTxt p p 3 =
      .ok ⟨dot (encImg p) (encImg p), 1 - dot (encImg p) (encImg p), none⟩ := by
  simp only [detect_changes]
  rw [show normalize fsqrt (vsub (encImg p) (encImg p)) = none from by
    simp [normalize, sqnorm_vsub_self]]
  simp only []
  rw [if_pos (by simp [CHANGE_DESCRIPTIONS])]

/-- C2: calling the similarity-scoring path (`classify_land_use`) with
`top_k` strictly greater than the number of catalog candidates fails
with the InvalidArgument-kind error raised by `torch.topk`. -/
theorem classify_topk_exceeds_errors (fexp : ℚ → ℚ)
    (encImg encTxt : String → List ℚ) (p : String) (top_k : Nat)
    (h : LAND_USE_CATEGORIES.length < top_k) :
    classify_land_use fexp encImg encTxt p top_k = .error .topkOutOfRange := by
  simp only [classify_land_use]
  rw [topk_err _ _ (by rw [classify_probs_length]; exact h)]

theorem classify_topk_exceeds_errors_witness :
    LAND_USE_CATEGORIES.length < 21 ∧
    classify_land_use (fun _ => 1) (fun _ => []) (fun _ => []) "img" 21 =
      .error .topkOutOfRange :=
  ⟨by simp [LAND_USE_CATEGORIES],
   classify_topk_exceeds_errors (fun _ => 1) (fun _ => []) (fun _ => []) "img" 21
     (by simp [LAND_USE_CATEGORIES])⟩

/-- C4: the temporal sequence analyzer fails with the
InvalidArgument-kind `ValueError` on fewer than 2 images, performing no
analysis. -/
theorem analyze_too_few_images_errors (fexp fsqrt : ℚ → ℚ)
    (encImg encTxt : String → List ℚ) (image_paths : List String)
    (dates : Option (List String)) (h : image_paths.length < 2) :
    analyze_temporal_sequence fexp fsqrt encImg encTxt image_paths dates =
      .error (.valueError "Need at least 2 images for temporal analysis") := by
  simp only [analyze_temporal_sequence]
  rw [if_pos h]

theorem analyze_too_few_images_errors_witness :
    (["one.png"] : List String).length < 2 ∧
    analyze_temporal_sequence (fun _ => 1) (fun q => q) (fun _ => [])
        (fun _ => []) ["one.png"] none =
      .error (.valueError "Need at least 2 images for temporal analysis") :=
  ⟨by decide,
   analyze_too_few_images_errors (fun _ => 1) (fun q => q) (fun _ => [])
     (fun _ => []) ["one.png"] none (by decide)⟩

/-- C6: whenever `detect_changes` returns, `overall_similarity` is the
raw dot product of the two image embeddings (not of the
change-contextualized vector) and `change_magnitude` is `1` minus
it. -/
theorem detect_changes_overall_similarity (fexp fsqrt : ℚ → ℚ)
    (encImg encTxt : String → List ℚ) (p1 p2 : String) (k : Nat)
    (r : ChangeResult) (h : detect_changes fexp fsqrt encImg encTxt p1 p2 k = .ok r) :
    r.overall_similarity = dot (encImg p1) (encImg p2) ∧
    r.change_magnitude = 1 - dot (encImg p1) (encImg p2) := by
  simp only [detect_changes] at h
  split at h
  · split at h
    · cases h; exact ⟨rfl, rfl⟩
    · exact Except.noConfusion h
  · split at h
    · split at h
      · cases h; exact ⟨rfl, rfl⟩
      · exact Except.noConfusion h
    · split at h
      · exact Except.noConfusion h
      · cases h; exact ⟨rfl, rfl⟩

theorem detect_changes_overall_similarity_witness :
    detect_changes (fun _ => 1) (fun q => q) (fun _ => []) (fun _ => [])
        "a" "b" 3 = .ok ⟨0, 1, none⟩ ∧
    ((⟨0, 1, none⟩ : ChangeResult).overall_similarity = dot [] [] ∧
     (⟨0, 1, none⟩ : ChangeResult).change_magnitude = 1 - dot [] []) := by
  have h : detect_changes (fun _ => 1) (fun q => q) (fun _ => []) (fun _ => [])
      "a" "b" 3 = .ok ⟨0, 1, none⟩ := by
    norm_num [detect_changes, normalize, sqnorm, dot, vsub, CHANGE_DESCRIPTIONS]
  exact ⟨h,
    detect_changes_overall_similarity (fun _ => 1) (fun q => q) (fun _ => [])
      (fun _ => []) "a" "b" 3 _ h⟩

/-- Supporting lemma: away from the NaN path — i.e. whenever the
scores fed to the softmax are actual numbers — the scorer's
distribution over a non-empty catalog sums to exactly 1 with every
entry in `[0, 1]`, given only that the exponential is positive (which
the float `exp` is). -/
theorem score_probs_distribution (fexp : ℚ → ℚ) (q : List ℚ)
    (cands : List (List ℚ)) (hpos : ∀ x : ℚ, 0 < fexp x) (hne : cands ≠ []) :
    (score_probs fexp q cands).sum = 1 ∧
    ∀ p ∈ score_probs fexp q cands, 0 ≤ p ∧ p ≤ 1 := by
  have hne' : ((cands.map (fun c => dot q c)).map (fun s => s * 100)) ≠ [] := by
    simpa using hne
  exact ⟨softmax_sum fexp hpos _ hne',
    fun p hp => softmax_mem_unitInterval fexp hpos _ p hp⟩

/-- C8: the claim asserts that every confidence distribution produced
over a full catalog sums to 1 with all values in `[0, 1]` even when
the input signal is degenerate.  The code violates this at exactly the
degenerate input the spec's scenario names: with two
embedding-identical images the difference vector is zero, its
normalization is `0/0 = NaN` per component, and the scores handed to
the softmax over the change catalog are all NaN — the produced
"distribution" is all-NaN (sum NaN, entries not in `[0, 1]`), marked
`detected_changes = none` here.  Away from that path the invariant
does hold (`score_probs_distribution` above), so the claim is the
intended behavior and the missing zero-vector fallback the slip. -/
theorem change_distribution_nan_on_identical (fexp fsqrt : ℚ → ℚ)
    (encImg encTxt : String → List ℚ) (p : String) :
    ∃ r, detect_changes fexp fsqrt encImg encTxt p p 3 = .ok r ∧
      r.detected_changes = none := by
  simp only [detect_changes]
  rw [show normalize fsqrt (vsub (encImg p) (encImg p)) = none from by
    simp [normalize, sqnorm_vsub_self]]
  simp only []
  rw [if_pos (by simp [CHANGE_DESCRIPTIONS])]
  exact ⟨_, rfl, rfl⟩

/-- C10: `get_analyzer` returns the stored singleton unchanged when the
requested `model_name` matches it, and otherwise replaces the singleton
with a freshly constructed, not-yet-loaded instance (a different object
from the stored one). -/
theorem get_analyzer_singleton (m : String) (st : SingletonState)
    (a : AnalyzerInst) (h : st.inst = some a) (hid : a.objId < st.nextId) :
    (a.model_name = m → get_analyzer m st = (a, st)) ∧
    (a.model_name ≠ m →
      (get_analyzer m st).1 = ⟨st.nextId, m, false⟩ ∧
      (get_analyzer m st).1 ≠ a ∧
      (get_analyzer m st).2 = ⟨some ⟨st.nextId, m, false⟩, st.nextId + 1⟩) := by
  unfold get_analyzer
  rw [h]
  simp only []
  constructor
  · intro hm
    rw [if_pos hm]
  · intro hm
    rw [if_neg hm]
    refine ⟨rfl, ?_, rfl⟩
    intro heq
    have : st.nextId = a.objId := congrArg AnalyzerInst.objId heq
    omega

theorem get_analyzer_singleton_witness :
    ((⟨some ⟨0, "ViT-B-32", true⟩, 1⟩ : SingletonState).inst =
        some ⟨0, "ViT-B-32", true⟩ ∧
      (⟨0, "ViT-B-32", true⟩ : AnalyzerInst).objId <
        (⟨some ⟨0, "ViT-B-32", true⟩, 1⟩ : SingletonState).nextId) ∧
    (((⟨0, "ViT-B-32", true⟩ : AnalyzerInst).model_name = "RN50" →
        get_analyzer "RN50" ⟨some ⟨0, "ViT-B-32", true⟩, 1⟩ =
          (⟨0, "ViT-B-32", true⟩, ⟨some ⟨0, "ViT-B-32", true⟩, 1⟩)) ∧
     ((⟨0, "ViT-B-32", true⟩ : AnalyzerInst).model_name ≠ "RN50" →
        (get_analyzer "RN50" ⟨some ⟨0, "ViT-B-32", true⟩, 1⟩).1 =
            ⟨1, "RN50", false⟩ ∧
        (get_analyzer "RN50" ⟨some ⟨0, "ViT-B-32", true⟩, 1⟩).1 ≠
            ⟨0, "ViT-B-32", true⟩ ∧
        (get_analyzer "RN50" ⟨some ⟨0, "ViT-B-32", true⟩, 1⟩).2 =
            ⟨some ⟨1, "RN50", false⟩, 2⟩)) :=
  ⟨⟨rfl, by decide⟩,
   get_analyzer_singleton "RN50" ⟨some ⟨0, "ViT-B-32", true⟩, 1⟩
     ⟨0, "ViT-B-32", true⟩ rfl (by decide)⟩

/-- C7: the scorer pipeline — dot products of the query against every
candidate, scaled by the fixed temperature 100, softmaxed over the full
candidate set (that is `score_probs` by definition) — selects `top_k`
entries whose confidences are exactly the softmax outputs at their
indices, listed in descending confidence order with ties broken by the
lower candidate index, and dominating every unselected candidate. -/
theorem scorer_selects_topk (fexp : ℚ → ℚ) (q : List ℚ)
    (cands : List (List ℚ)) (k : Nat) (hk : k ≤ cands.length) :
    ∃ l, topk (score_probs fexp q cands) k = .ok l ∧
      l.length = k ∧
      (∀ p ∈ l, (score_probs fexp q cands).get? p.2 = some p.1) ∧
      l.Pairwise rankLt ∧
      (∀ p ∈ l, ∀ j c, (score_probs fexp q cands).get? j = some c →
        j ∉ l.map Prod.snd → (c < p.1 ∨ (c = p.1 ∧ p.2 < j))) := by
  have hlen : k ≤ (score_probs fexp q cands).length := by
    rw [score_probs_length]; exact hk
  have h := topk_ok _ _ hlen
  obtain ⟨h1, h2, h3, h4⟩ := topk_spec _ _ _ h
  exact ⟨_, h, h1, h2, h3, h4⟩

theorem scorer_selects_topk_witness :
    1 ≤ ([[(1 : ℚ)]] : List (List ℚ)).length ∧
    (∃ l, topk (score_probs (fun _ => 1) [1] [[1]]) 1 = .ok l ∧
      l.length = 1 ∧
      (∀ p ∈ l, (score_probs (fun _ => 1) [1] [[1]]).get? p.2 = some p.1) ∧
      l.Pairwise rankLt ∧
      (∀ p ∈ l, ∀ j c, (score_probs (fun _ => 1) [1] [[1]]).get? j = some c →
        j ∉ l.map Prod.snd → (c < p.1 ∨ (c = p.1 ∧ p.2 < j)))) :=
  ⟨by decide, scorer_selects_topk (fun _ => 1) [1] [[1]] 1 (by decide)⟩

/-- C3: whenever `classify_land_use` returns for a positive `top_k`,
the ranked list has length `min top_k catalog_size` and is sorted by
descending confidence. -/
theorem classify_output_length_sorted (fexp : ℚ → ℚ)
    (encImg encTxt : String → List ℚ) (p : String) (top_k : Nat)
    (l : List Prediction) (hpos : 0 < top_k)
    (h : classify_land_use fexp encImg encTxt p top_k = .ok l) :
    l.length = min top_k LAND_USE_CATEGORIES.length ∧
    l.Pairwise (fun a b => b.confidence ≤ a.confidence) := by
  simp only [classify_land_use] at h
  split at h
  · exact Except.noConfusion h
  case _ tops heq =>
    cases h
    obtain ⟨h1, h2, h3, h4⟩ := topk_spec _ _ _ heq
    have hk : top_k ≤ LAND_USE_CATEGORIES.length := by
      have := topk_ok_le _ _ _ heq
      rwa [classify_probs_length] at this
    constructor
    · rw [List.length_map, h1]
      exact (Nat.min_eq_left hk).symm
    · refine List.pairwise_map.mpr (h3.imp ?_)
      rintro a b (hlt | ⟨heq2, -⟩)
      · exact hlt.le
      · exact heq2.ge

theorem classify_output_length_sorted_witness :
    0 < 2 ∧
    classify_land_use (fun _ => 1) (fun _ => []) (fun _ => []) "img" 2 =
      .ok [⟨"urban area with buildings and roads", 1/20⟩,
           ⟨"residential neighborhood with houses", 1/20⟩] ∧
    (([⟨"urban area with buildings and roads", 1/20⟩,
       ⟨"residential neighborhood with houses", 1/20⟩] :
        List Prediction).length = min 2 LAND_USE_CATEGORIES.length ∧
     ([⟨"urban area with buildings and roads", 1/20⟩,
       ⟨"residential neighborhood with houses", 1/20⟩] :
        List Prediction).Pairwise (fun a b => b.confidence ≤ a.confidence)) := by
  have h : classify_land_use (fun _ => 1) (fun _ => []) (fun _ => []) "img" 2 =
      .ok [⟨"urban area with buildings and roads", 1/20⟩,
           ⟨"residential neighborhood with houses", 1/20⟩] := by
    norm_num [classify_land_use, score_probs, softmax, topk, rankAll, withIdx,
      rankLe, dot, LAND_USE_CATEGORIES, List.insertionSort, List.orderedInsert]
  exact ⟨by decide, h,
    classify_output_length_sorted (fun _ => 1) (fun _ => []) (fun _ => [])
      "img" 2 _ (by decide) h⟩

/-- C9: `compare_images` reports `change_detected` exactly when the
cosine similarity of the two image embeddings is below the fixed
threshold `0.85` or the top-1 land-use categories of the two images
differ; its `similarity` field is that cosine similarity. -/
theorem compare_images_change_detected (fexp : ℚ → ℚ)
    (encImg encTxt : String → List ℚ) (p1 p2 : String) (r : CompareResult)
    (h : compare_images fexp encImg encTxt p1 p2 = .ok r) :
    r.similarity = dot (encImg p1) (encImg p2) ∧
    (r.change_detected = true ↔
      (dot (encImg p1) (encImg p2) < 17/20 ∨
       r.image1_classification.category ≠ r.image2_classification.category)) := by
  simp only [compare_images] at h
  split at h
  · exact Except.noConfusion h
  · split at h
    · exact Except.noConfusion h
    · split at h
      · cases h
        simp
      · exact Except.noConfusion h

theorem compare_images_change_detected_witness :
    compare_images (fun _ => 1) (fun _ => []) (fun _ => []) "a" "b" =
      .ok ⟨0, true, ⟨"urban area with buildings and roads", 1/20⟩,
           ⟨"urban area with buildings and roads", 1/20⟩⟩ ∧
    ((⟨0, true, ⟨"urban area with buildings and roads", 1/20⟩,
        ⟨"urban area with buildings and roads", 1/20⟩⟩ :
          CompareResult).similarity = dot [] [] ∧
     ((⟨0, true, ⟨"urban area with buildings and roads", 1/20⟩,
         ⟨"urban area with buildings and roads", 1/20⟩⟩ :
           CompareResult).change_detected = true ↔
       (dot [] [] < 17/20 ∨
        (⟨0, true, ⟨"urban area with buildings and roads", 1/20⟩,
          ⟨"urban area with buildings and roads", 1/20⟩⟩ :
            CompareResult).image1_classification.category ≠
          (⟨0, true, ⟨"urban area with buildings and roads", 1/20⟩,
            ⟨"urban area with buildings and roads", 1/20⟩⟩ :
              CompareResult).image2_classification.category))) := by
  have h : compare_images (fun _ => 1) (fun _ => []) (fun _ => []) "a" "b" =
      .ok ⟨0, true, ⟨"urban area with buildings and roads", 1/20⟩,
           ⟨"urban area with buildings and roads", 1/20⟩⟩ := by
    norm_num [compare_images, classify_land_use, score_probs, softmax, topk,
      rankAll, withIdx, rankLe, dot, LAND_USE_CATEGORIES, List.insertionSort,
      List.orderedInsert]
  exact ⟨h,
    compare_images_change_detected (fun _ => 1) (fun _ => []) (fun _ => [])
      "a" "b" _ h⟩

theorem classifyStep_ok (fexp : ℚ → ℚ) (encImg encTxt : String → List ℚ)
    (dates : Option (List String)) (n : Nat)
    (hd : dates = none ∨ ∃ ds, dates = some ds ∧ ds.length = n)
    (i : Nat) (p : String) (hi : i < n) :
    ∃ b, classifyStep fexp encImg encTxt dates (i, p) = .ok b ∧
      b.index = i ∧ b.classification.length = 2 := by
  obtain ⟨c, hc, hclen⟩ := classify_land_use_ok fexp encImg encTxt p 2
    (by rw [land_use_catalog_length]; omega)
  obtain ⟨d, hdok⟩ := dateAt_ok dates n i hd hi
  refine ⟨⟨i, d, c⟩, ?_, rfl, hclen⟩
  unfold classifyStep
  simp only []
  rw [hc]
  simp only []
  rw [hdok]

theorem pairStep_ok (fexp fsqrt : ℚ → ℚ) (encImg encTxt : String → List ℚ)
    (image_paths : List String) (dates : Option (List String))
    (hd : dates = none ∨ ∃ ds, dates = some ds ∧ ds.length = image_paths.length)
    (i : Nat) (hi : i + 1 < image_paths.length) :
    ∃ b, pairStep fexp fsqrt encImg encTxt image_paths dates i = .ok b ∧
      b.from_index = i ∧ b.to_index = i + 1 := by
  obtain ⟨a, ha, -, -⟩ := detect_changes_ok fexp fsqrt encImg encTxt
    (image_paths.getD i "") (image_paths.getD (i + 1) "") 3
    (by rw [change_catalog_length]; omega)
  obtain ⟨fd, hfd⟩ := dateAt_ok dates image_paths.length i hd (by omega)
  obtain ⟨td, htd⟩ := dateAt_ok dates image_paths.length (i + 1) hd hi
  refine ⟨⟨i, i + 1, fd, td, a⟩, ?_, rfl, rfl⟩
  unfold pairStep
  rw [ha]
  simp only []
  rw [hfd]
  simp only []
  rw [htd]

/-- C5: for every sequence of `N ≥ 2` images (with absent or
length-matching dates), `analyze_temporal_sequence` succeeds and
returns exactly `N` individual classifications carrying their input
indices in order, exactly `N - 1` pairwise changes over the
consecutive pairs `(i, i + 1)` in order, and exactly one overall-trend
entry built from `detect_changes` on the first and last image. -/
theorem analyze_sequence_structure (fexp fsqrt : ℚ → ℚ)
    (encImg encTxt : String → List ℚ) (image_paths : List String)
    (dates : Option (List String)) (h2 : 2 ≤ image_paths.length)
    (hd : dates = none ∨ ∃ ds, dates = some ds ∧ ds.length = image_paths.length) :
    ∃ r, analyze_temporal_sequence fexp fsqrt encImg encTxt image_paths dates =
        .ok r ∧
      r.num_images = image_paths.length ∧
      r.individual_classifications.length = image_paths.length ∧
      (∀ i e, r.individual_classifications.get? i = some e → e.index = i) ∧
      r.pairwise_changes.length = image_paths.length - 1 ∧
      (∀ i e, r.pairwise_changes.get? i = some e →
        e.from_index = i ∧ e.to_index = i + 1) ∧
      (∃ t cr, r.overall_trend = some t ∧
        detect_changes fexp fsqrt encImg encTxt (image_paths.getD 0 "")
          (image_paths.getD (image_paths.length - 1) "") 3 = .ok cr ∧
        t.total_change_magnitude = cr.change_magnitude ∧
        t.primary_changes = cr.detected_changes) := by
  have hall1 : ∀ a ∈ image_paths.enum, ∃ b,
      classifyStep fexp encImg encTxt dates a = .ok b := by
    rintro ⟨i, p⟩ hmem
    have hget : image_paths.get? i = some p := List.mk_mem_enum_iff_get?.mp hmem
    have hi : i < image_paths.length := (List.get?_eq_some.mp hget).choose
    obtain ⟨b, hb, -, -⟩ :=
      classifyStep_ok fexp encImg encTxt dates image_paths.length hd i p hi
    exact ⟨b, hb⟩
  obtain ⟨indiv, hindiv, hindivlen, hindivpt⟩ := mapME_ok _ _ hall1
  have hindivlen' : indiv.length = image_paths.length := by
    rw [hindivlen, List.enum_length]
  have hall2 : ∀ i ∈ List.range (image_paths.length - 1), ∃ b,
      pairStep fexp fsqrt encImg encTxt image_paths dates i = .ok b := by
    intro i hmem
    have hi : i < image_paths.length - 1 := List.mem_range.mp hmem
    obtain ⟨b, hb, -, -⟩ :=
      pairStep_ok fexp fsqrt encImg encTxt image_paths dates hd i (by omega)
    exact ⟨b, hb⟩
  obtain ⟨pairs, hpairs, hpairslen, hpairspt⟩ := mapME_ok _ _ hall2
  obtain ⟨cr, hcr, -, -⟩ := detect_changes_ok fexp fsqrt encImg encTxt
    (image_paths.getD 0 "") (image_paths.getD (image_paths.length - 1) "") 3
    (by rw [change_catalog_length]; omega)
  obtain ⟨ic0, hic0, hic0get⟩ := listAt_ok indiv 0 (by omega)
  obtain ⟨icN, hicN, hicNget⟩ := listAt_ok indiv (indiv.length - 1) (by omega)
  -- recover what the first and last entries of `indiv` are
  obtain ⟨p0, -, hp0get⟩ := listAt_ok image_paths 0 (by omega)
  have henum0 : image_paths.enum.get? 0 = some (0, p0) := by
    rw [List.get?_enum, hp0get]; rfl
  obtain ⟨b0, hfb0, hb0get⟩ := hindivpt 0 (0, p0) henum0
  have hb0 : b0 = ic0 := Option.some_inj.mp (hb0get.symm.trans hic0get)
  obtain ⟨b0', hb0', -, hb0len⟩ :=
    classifyStep_ok fexp encImg encTxt dates image_paths.length hd 0 p0 (by omega)
  have hic0len : ic0.classification.length = 2 := by
    have : b0' = b0 := by
      rw [hb0'] at hfb0
      exact (Except.ok.inj hfb0)
    rw [← hb0, ← this]
    exact hb0len
  obtain ⟨pN, -, hpNget⟩ :=
    listAt_ok image_paths (image_paths.length - 1) (by omega)
  have henumN : image_paths.enum.get? (image_paths.length - 1) =
      some (image_paths.length - 1, pN) := by
    rw [List.get?_enum, hpNget]; rfl
  obtain ⟨bN, hfbN, hbNget⟩ :=
    hindivpt (image_paths.length - 1) (image_paths.length - 1, pN) henumN
  have hbN : bN = icN := by
    apply Option.some_inj.mp
    rw [← hbNget, ← hicNget, hindivlen']
  obtain ⟨bN', hbN', -, hbNlen⟩ :=
    classifyStep_ok fexp encImg encTxt dates image_paths.length hd
      (image_paths.length - 1) pN (by omega)
  have hicNlen : icN.classification.length = 2 := by
    have : bN' = bN := by
      rw [hbN'] at hfbN
      exact (Except.ok.inj hfbN)
    rw [← hbN, ← this]
    exact hbNlen
  obtain ⟨fc, hfc, -⟩ := listAt_ok ic0.classification 0 (by omega)
  obtain ⟨lc, hlc, -⟩ := listAt_ok icN.classification 0 (by omega)
  refine ⟨⟨image_paths.length, dates, indiv, pairs,
      some ⟨cr.change_magnitude, cr.detected_changes,
        ⟨fc.category, lc.category, decide (fc.category = lc.category)⟩⟩⟩,
    ?_, rfl, hindivlen', ?_, ?_, ?_, ?_⟩
  · simp only [analyze_temporal_sequence]
    rw [if_neg (by omega)]
    rw [hindiv]
    simp only []
    rw [hpairs]
    simp only []
    rw [hcr]
    simp only []
    rw [hic0, hicN]
    simp only []
    rw [hfc, hlc]
  · intro i e hie
    simp only [] at hie
    have hi : i < image_paths.length := by
      have := (List.get?_eq_some.mp hie).choose
      omega
    obtain ⟨pi, -, hpiget⟩ := listAt_ok image_paths i hi
    have henum : image_paths.enum.get? i = some (i, pi) := by
      rw [List.get?_enum, hpiget]; rfl
    obtain ⟨b, hfb, hbget⟩ := hindivpt i (i, pi) henum
    have hbe : b = e := Option.some_inj.mp (hbget.symm.trans hie)
    obtain ⟨b', hb', hbidx, -⟩ :=
      classifyStep_ok fexp encImg encTxt dates image_paths.length hd i pi hi
    have hbb : b' = b := by
      rw [hb'] at hfb
      exact Except.ok.inj hfb
    rw [← hbe, ← hbb]
    exact hbidx
  · rw [hpairslen, List.length_range]
  · intro i e hie
    simp only [] at hie
    have hi : i < image_paths.length - 1 := by
      have := (List.get?_eq_some.mp hie).choose
      rw [hpairslen, List.length_range] at this
      omega
    obtain ⟨b, hfb, hbget⟩ := hpairspt i i (List.get?_range hi)
    have hbe : b = e := Option.some_inj.mp (hbget.symm.trans hie)
    obtain ⟨b', hb', hbfrom, hbto⟩ :=
      pairStep_ok fexp fsqrt encImg encTxt image_paths dates hd i (by omega)
    have hbb : b' = b := by
      rw [hb'] at hfb
      exact Except.ok.inj hfb
    rw [← hbe, ← hbb]
    exact ⟨hbfrom, hbto⟩
  · exact ⟨_, cr, rfl, hcr, rfl, rfl⟩

theorem analyze_sequence_structure_witness :
    (2 ≤ (["a.png", "b.png"] : List String).length ∧
      ((none : Option (List String)) = none ∨
        ∃ ds, (none : Option (List String)) = some ds ∧
          ds.length = (["a.png", "b.png"] : List String).length)) ∧
    (∃ r, analyze_temporal_sequence (fun _ => 1) (fun q => q) (fun _ => [])
        (fun _ => []) ["a.png", "b.png"] none = .ok r ∧
      r.num_images = (["a.png", "b.png"] : List String).length ∧
      r.individual_classifications.length =
        (["a.png", "b.png"] : List String).length ∧
      (∀ i e, r.individual_classifications.get? i = some e → e.index = i) ∧
      r.pairwise_changes.length = (["a.png", "b.png"] : List String).length - 1 ∧
      (∀ i e, r.pairwise_changes.get? i = some e →
        e.from_index = i ∧ e.to_index = i + 1) ∧
      (∃ t cr, r.overall_trend = some t ∧
        detect_changes (fun _ => 1) (fun q => q) (fun _ => []) (fun _ => [])
          ((["a.png", "b.png"] : List String).getD 0 "")
          ((["a.png", "b.png"] : List String).getD
            ((["a.png", "b.png"] : List String).length - 1) "") 3 = .ok cr ∧
        t.total_change_magnitude = cr.change_magnitude ∧
        t.primary_changes = cr.detected_changes)) :=
  ⟨⟨by decide, Or.inl rfl⟩,
   analyze_sequence_structure (fun _ => 1) (fun q => q) (fun _ => [])
     (fun _ => []) ["a.png", "b.png"] none (by decide) (Or.inl rfl)⟩

end RemoteCLIP
